import Mathlib

/-!
Verification of the `prrt` kinodynamic motion planner (files
`prrt/ptg.py` and `prrt/planner.py`) against its natural-language
specification.

The development shallowly embeds the operations that the specification's
claims are about:

* `PTGm` / `inverse_WS2TP` — the grid-indexed inverse workspace-to-parameter
  mapping of `PTG.inverse_WS2TP` (ptg.py lines 121-164);
* `getAptgNearestNode` — the pre-filtered nearest-node scan of
  `Tree.get_aptg_nearest_node` (planner.py lines 54-74);
* `sortedDictCommit` — the `SortedDict`-based candidate commit of
  `Planner.solve` (planner.py lines 227, 273, 280);
* `solveRun` — the control-flow skeleton of `Planner.solve`
  (planner.py lines 207-328), with the numeric conditions of one
  APTG evaluation abstracted into oracle data;
* `transform_toTP_obstacles` — the obstacle free-distance lookup
  (planner.py lines 179-205);
* `ptg_at_phi` — the APTG articulation-angle lookup (ptg.py lines 355-360);
* `buildLoop` — the trajectory sampling loop shared by
  `CPTG.build_cpoints` and `AlphaA_PTG.build_cpoints`
  (ptg.py lines 186-221 and 272-307);
* `get_cpoint_at_d` — the distance-indexed sample lookup (ptg.py 166-170).

Machine floats are modelled by `ℚ` (exact arithmetic) where the code is
purely rational, and by `ℝ` where the code calls `sqrt`, `exp`, `tan` or
`cos`/`sin`.  Python's `float('inf')` is modelled by `⊤` in `WithTop ℚ`.
The repository files `prrt/grid.py`, `prrt/primitive.py`, `prrt/helper.py`
and `prrt/vehicle.py` are not part of the sources under verification; the
operations they provide (grid cell lookup, pose arithmetic, kinematic
integration) are modelled from the specification where needed, and each
such definition is marked `Modelled from the spec:`.
-/

namespace Prrt

/-! ## Sorted-dictionary candidate commit (planner.py lines 227, 273, 280)

`Planner.solve` collects accepted candidate edges in a
`sortedcontainers.SortedDict` keyed by `d_new` (`candidate_new_nodes`),
inserting with `update({d_new: new_edge})` and committing
`peekitem(-1)[1]`, the value stored at the greatest key.  `sdInsert`
embeds one `update` on the sorted key-value list backing the dictionary:
a new key is placed at its sorted position, an existing key has its value
replaced in place. -/

def sdInsert {α : Type} : List (ℚ × α) → ℚ × α → List (ℚ × α)
  | [], e => [e]
  | (k, v) :: rest, e =>
    if e.1 < k then e :: (k, v) :: rest
    else if e.1 = k then e :: rest
    else (k, v) :: sdInsert rest e

/-- The key-value list of the `SortedDict` after the given sequence of
`update({d_new: new_edge})` calls, in call order. -/
def sdOfInserts {α : Type} (entries : List (ℚ × α)) : List (ℚ × α) :=
  entries.foldl sdInsert []

/-- `candidate_new_nodes.peekitem(-1)` applied to the dictionary built from
the insertion sequence `entries`: the entry with the greatest key, `none`
when the dictionary is empty. -/
def sortedDictCommit {α : Type} (entries : List (ℚ × α)) : Option (ℚ × α) :=
  (sdOfInserts entries).getLast?

/-- Spec-side restatement of step 6 of the tree-growth loop: a running
best-candidate tracker in insertion order where a candidate whose key is
greater than or equal to the current best replaces it (so equal keys are
resolved last-inserted-wins). -/
def specStep {α : Type} (best : Option (ℚ × α)) (e : ℚ × α) : Option (ℚ × α) :=
  match best with
  | none => some e
  | some b => if b.1 ≤ e.1 then some e else some b

/-- Spec-side commit: the greatest-key, last-inserted-on-ties candidate. -/
def specCommit {α : Type} (entries : List (ℚ × α)) : Option (ℚ × α) :=
  entries.foldl specStep none

/-! ## Pose and trajectory sample primitives (primitive.py, not under src) -/

/-- A planar pose with articulation angle, the fields of `PoseR2S2` read by
the embedded operations. -/
structure PoseQ where
  x : ℚ
  y : ℚ
  theta : ℚ
  phi : ℚ
deriving DecidableEq

/-- One sampled trajectory point, the fields of `CPoint` read by
`inverse_WS2TP` and `get_cpoint_at_d`: workspace position, cumulative
arc-length `d`, steering parameter `alpha`. -/
structure CPointQ where
  x : ℚ
  y : ℚ
  d : ℚ
  alpha : ℚ
deriving DecidableEq, Inhabited

/-! ## PTG state and the grid-indexed inverse mapping (ptg.py lines 121-164) -/

/-- The `PTG` state read by `inverse_WS2TP`.  The point-index grid lives in
`prrt/grid.py`, which is not among the sources; its interface is
modelled from the spec: the point-index maps a workspace cell to the
bounding range `(k_min, n_min, k_max, n_max)` of the (steering-index,
sample-index) pairs whose points fall in that cell (`cellByIdx`, returning
`none` for a cell holding no point), with `xToIx`/`yToIy` mapping a
coordinate to its cell index.  `alpha2idxF` models `PTG.alpha2idx`
(wrap + clamp + round, ptg.py lines 114-119), which the grid-indexed branch
never calls. -/
structure PTGm where
  cpoints : List (List CPointQ)
  distance_ref : ℚ
  xToIx : ℚ → ℤ
  yToIy : ℚ → ℤ
  cellByIdx : ℤ → ℤ → Option (ℕ × ℕ × ℕ × ℕ)
  alpha2idxF : ℚ → ℤ

/-- The running `(k_min, n_min, k_max, n_max, at_least_once)` state of the
neighbourhood loop at ptg.py lines 122-138, with the source's initial
values `k_min = n_min = 100000`, `k_max = n_max = 0`. -/
structure Bounds where
  kmin : ℕ
  nmin : ℕ
  kmax : ℕ
  nmax : ℕ
  found : Bool
deriving DecidableEq

def boundsInit : Bounds := ⟨100000, 100000, 0, 0, false⟩

/-- Folding one grid-cell lookup result into the running bounds
(ptg.py lines 132-138). -/
def boundsAdd (b : Bounds) (cell : Option (ℕ × ℕ × ℕ × ℕ)) : Bounds :=
  match cell with
  | none => b
  | some (ckmin, cnmin, ckmax, cnmax) =>
    ⟨min b.kmin ckmin, min b.nmin cnmin, max b.kmax ckmax, max b.nmax cnmax, true⟩

/-- The nine `(i, j)` index pairs of the 3×3 neighbourhood loop
`for i in [ix-1, ix, ix+1]: for j in [iy-1, iy, iy+1]`, as offsets. -/
def neighborOffsets : List (ℤ × ℤ) :=
  [(-1, -1), (-1, 0), (-1, 1), (0, -1), (0, 0), (0, 1), (1, -1), (1, 0), (1, 1)]

/-- The bounds accumulated by the neighbourhood loop of `inverse_WS2TP`
(ptg.py lines 129-138).  Faithful to the source: the loop body queries
`self.cpoints_grid.cell_by_idx(ix, iy)` — the centre cell — on every one of
the nine iterations, ignoring the loop variables `i` and `j`
(ptg.py line 131). -/
def scanBounds (P : PTGm) (ix iy : ℤ) : Bounds :=
  neighborOffsets.foldl (fun b _ => boundsAdd b (P.cellByIdx ix iy)) boundsInit

/-- Spec-side bounds: the union of the `(k, n)` bounding ranges over the
nine cells of the 3×3 neighbourhood of `p`'s cell, as §4.2 describes. -/
def specBounds (P : PTGm) (ix iy : ℤ) : Bounds :=
  neighborOffsets.foldl
    (fun b off => boundsAdd b (P.cellByIdx (ix + off.1) (iy + off.2))) boundsInit

/-- Python `range(a, b)`. -/
def pyRange (a b : ℕ) : List ℕ := List.range' a (b - a)

/-- The exact-arithmetic core of `PTG.inverse_WS2TP` (ptg.py lines 121-164):
returns `(at_least_once, k_best, d_best)` as computed by the scan, before
the final `sqrt(d_best) / distance_ref` normalization.  `⊤ : WithTop ℚ`
models the initial `least_dist_square = float('inf')`. -/
def inverseWS2TPCore (P : PTGm) (p : PoseQ) : Bool × ℤ × ℚ :=
  let ix := P.xToIx p.x
  let iy := P.yToIy p.y
  let b := scanBounds P ix iy
  if b.found then
    let r := (pyRange b.kmin (b.kmax + 1)).foldl (fun st k =>
      (pyRange b.nmin (min (b.nmax + 1) (P.cpoints.getD k []).length)).foldl
        (fun (st : ℤ × ℚ × WithTop ℚ) n =>
          let c := (P.cpoints.getD k []).getD n default
          let ds : ℚ := (p.x - c.x) ^ 2 + (p.y - c.y) ^ 2
          if (ds : WithTop ℚ) < st.2.2 then ((k : ℤ), c.d, (ds : WithTop ℚ)) else st)
        st)
      ((-1 : ℤ), (-1 : ℚ), (⊤ : WithTop ℚ))
    (true, r.1, r.2.1)
  else
    let r := P.cpoints.foldl (fun (st : ℤ × ℚ × WithTop ℚ) l =>
      match l.getLast? with
      | none => st
      | some c =>
        let ds : ℚ := c.d ^ 2 + (p.x - c.x) ^ 2 + (p.y - c.y) ^ 2
        if (ds : WithTop ℚ) < st.2.2 then (P.alpha2idxF c.alpha, ds, (ds : WithTop ℚ)) else st)
      ((-1 : ℤ), (-1 : ℚ), (⊤ : WithTop ℚ))
    (false, r.1, r.2.1)

/-- `PTG.inverse_WS2TP`: the scan result with the final normalization
`d = sqrt(d_best) / self.distance_ref` (ptg.py lines 152 and 163). -/
noncomputable def inverse_WS2TP (P : PTGm) (p : PoseQ) : Bool × ℤ × ℝ :=
  let r := inverseWS2TPCore P p
  (r.1, r.2.1, Real.sqrt (r.2.2 : ℝ) / (P.distance_ref : ℝ))

/-! ## Distance-indexed sample lookup (ptg.py lines 166-170) -/

/-- The scan `for cpoint in self.cpoints[k]: if cpoint.d >= d: return cpoint`
with the implicit `None` fall-through. -/
def scanAtLeastD (d : ℚ) : List CPointQ → Option CPointQ
  | [] => none
  | c :: rest => if d ≤ c.d then some c else scanAtLeastD d rest

/-- `PTG.get_cpoint_at_d(d, k)`.  The outer `none` models the assertion
`assert k < len(self.cpoints)` failing. -/
def get_cpoint_at_d (cps : List (List CPointQ)) (d : ℚ) (k : ℕ) :
    Option (Option CPointQ) :=
  if k < cps.length then some (scanAtLeastD d (cps.getD k [])) else none

/-! ## Pre-filtered nearest-node scan (planner.py lines 54-74)

`Tree.get_aptg_nearest_node` scans the node list keeping a running best
`(node_min, d_min)`, skipping a node when `|Δx| > d_min` or `|Δy| > d_min`
before calling the expensive `ptg.get_distance`.  `distF from to` models
`aptg.ptg_at_phi(from.phi).get_distance(from, to)`: pose subtraction and
the trajectory-space distance live in `prrt/primitive.py` and the sampled
PTG data, so the distance is a parameter here; `⊤` models `float('inf')`
(the `is_exact = False` case of `get_distance`, ptg.py line 108). -/
def nearestStepFiltered (distF : PoseQ → PoseQ → WithTop ℚ) (t : PoseQ)
    (st : Option PoseQ × WithTop ℚ) (n : PoseQ) : Option PoseQ × WithTop ℚ :=
  if ((|n.x - t.x| : ℚ) : WithTop ℚ) > st.2 then st
  else if ((|n.y - t.y| : ℚ) : WithTop ℚ) > st.2 then st
  else
    let d := distF n t
    if d < st.2 then (some n, d) else st

def getAptgNearestNode (distF : PoseQ → PoseQ → WithTop ℚ) (nodes : List PoseQ)
    (t : PoseQ) : Option PoseQ × WithTop ℚ :=
  nodes.foldl (nearestStepFiltered distF t) (none, ⊤)

/-- Spec-side unfiltered scan step: evaluate the trajectory-space distance
and keep the running minimum. -/
def nearestStepUnfiltered (distF : PoseQ → PoseQ → WithTop ℚ) (t : PoseQ)
    (st : Option PoseQ × WithTop ℚ) (n : PoseQ) : Option PoseQ × WithTop ℚ :=
  let d := distF n t
  if d < st.2 then (some n, d) else st

/-- Spec-side unfiltered scan: evaluate the trajectory-space distance for
every node of the tree and keep the minimum. -/
def unfilteredNearestNode (distF : PoseQ → PoseQ → WithTop ℚ) (nodes : List PoseQ)
    (t : PoseQ) : Option PoseQ × WithTop ℚ :=
  nodes.foldl (nearestStepUnfiltered distF t) (none, ⊤)

/-- Concrete distance oracle for the pre-filter counterexample.  The values
are realizable by `PTG.get_distance`, which returns
`sqrt(arc length of the matched CPoint)` (ptg.py lines 102-108 composed
with the normalization at line 152): an arc length of 100 yields distance
10 and an arc length of 49 yields distance 7, while the matched pose can
lie 40 units away in `x`. -/
def cexDist : PoseQ → PoseQ → WithTop ℚ :=
  fun n _ => if n.x = 0 then ((10 : ℚ) : WithTop ℚ) else ((7 : ℚ) : WithTop ℚ)

def cexNodes : List PoseQ := [⟨0, 0, 0, 0⟩, ⟨10, 0, 0, 0⟩]

def cexTarget : PoseQ := ⟨50, 0, 0, 0⟩

/-! ## Obstacle-aware free-distance lookup (planner.py lines 179-205) -/

/-- A 2D point (`PointR2`). -/
structure PointR2 where
  x : ℚ
  y : ℚ
deriving DecidableEq

/-- One `(steering index, minimal free distance)` record of an
obstacle-index cell. -/
structure KdPair where
  k : ℕ
  d : ℚ
deriving DecidableEq

/-- The inner loop over one collision cell (planner.py lines 201-204):
take the first pair matching `k` that improves the running value, then
`break`; pairs matching `k` that do not improve are passed over without
breaking. -/
def scanCollisionCell (k : ℕ) (cur : ℚ) : List KdPair → ℚ
  | [] => cur
  | p :: rest => if p.k = k ∧ p.d < cur then p.d else scanCollisionCell k cur rest

/-- The `PTG` state read by `transform_toTP_obstacles`: the trajectory
count (`len(ptg.cpoints)`), `distance_ref`, and the obstacle-index lookup
`obstacle_grid.cell_by_pos`, modelled from the spec (grid.py is not among
the sources): a cell holds the list of `(steering-index, minimal
free distance)` pairs recorded for it, `none` for a cell holding no
record or a point outside the grid. -/
structure ObsPTG where
  numK : ℕ
  distance_ref : ℚ
  cellByPos : PointR2 → Option (List KdPair)

/-- Processing one obstacle point (planner.py lines 192-204): skip it when
outside the `max_dist` box or when its cell holds no record, otherwise fold
its cell's records for `k` into entry `k` of `obs_TP`. -/
def obsStep (P : ObsPTG) (k : ℕ) (maxDist : ℚ) (obsTP : List ℚ) (o : PointR2) :
    List ℚ :=
  if |o.x| > maxDist ∨ |o.y| > maxDist then obsTP
  else
    match P.cellByPos o with
    | none => obsTP
    | some cell => obsTP.set k (scanCollisionCell k (obsTP.getD k 0) cell)

/-- `Planner.transform_toTP_obstacles(ptg, obstacles_ws, k, max_dist)`
(planner.py lines 179-205): start from `[distance_ref] * len(ptg.cpoints)`,
and process every obstacle point in order. -/
def transform_toTP_obstacles (P : ObsPTG) (obstacles : List PointR2) (k : ℕ)
    (maxDist : ℚ) : List ℚ :=
  obstacles.foldl (obsStep P k maxDist) (List.replicate P.numK P.distance_ref)

/-! ## APTG articulation-angle lookup (ptg.py lines 355-360) -/

/-- `np.rint`: round half to even. -/
def rintQ (q : ℚ) : ℤ :=
  let f := ⌊q⌋
  let r := q - (f : ℚ)
  if r < 1 / 2 then f
  else if 1 / 2 < r then f + 1
  else if f % 2 = 0 then f else f + 1

/-- Outcomes of `APTG.ptg_at_phi` other than returning a PTG:
`assertionFailure` models the `assert idx <= len(self.ptgs)` tripping,
`indexFailure` models Python raising `IndexError` on `self.ptgs[idx]`. -/
inductive PtgLookupError where
  | assertionFailure
  | indexFailure
deriving DecidableEq

/-- `APTG.ptg_at_phi(phi)` (ptg.py lines 355-360):
`idx = int(np.rint((phi - (-phi_max)) / phi_resolution))`, then
`assert idx <= len(self.ptgs)`, then Python list indexing `self.ptgs[idx]`
— which wraps around for `-len ≤ idx < 0` and raises `IndexError`
otherwise when `idx` is out of `[0, len)`. -/
def ptg_at_phi {α : Type} (ptgs : List α) (phiMax phiRes phi : ℚ) :
    Except PtgLookupError α :=
  let idx := rintQ ((phi - (-phiMax)) / phiRes)
  if idx ≤ (ptgs.length : ℤ) then
    if h : 0 ≤ idx ∧ idx < (ptgs.length : ℤ) then
      .ok (ptgs.get ⟨idx.toNat, by omega⟩)
    else if h2 : -(ptgs.length : ℤ) ≤ idx ∧ idx < 0 then
      .ok (ptgs.get ⟨((ptgs.length : ℤ) + idx).toNat, by omega⟩)
    else .error .indexFailure
  else .error .assertionFailure

/-! ## Control-flow skeleton of `Planner.solve` (planner.py lines 207-328)

One iteration of the sampling loop evaluates every APTG; the numeric
outcome of one APTG evaluation (which depends on the world map, the
obstacle cloud and the float pipeline, all outside the sources under
`src/`) is abstracted into an `AptgStep` oracle value, while the control
flow — which Python locals get bound, which candidates get collected,
which node gets committed, when the loop exits — is embedded faithfully. -/

/-- The data of one candidate edge the skeleton needs: an identifier, the
end pose's distance to goal, and whether the end pose satisfies both goal
tolerances (`is_acceptable_goal` for this pose, planner.py lines 258-260
and 284-288 compute the same predicate of the same pose). -/
structure EdgeM where
  id : ℕ
  goalDist : ℚ
  acceptable : Bool
deriving DecidableEq

/-- Outcome of one APTG evaluation inside one iteration:
`noNearest` — `get_aptg_nearest_node` found no node (line 231 skip);
`tooShort` — the trajectory cannot reach `d_new` (line 248 skip);
`blocked` — `d_free < d_new`, the path-not-free branch (line 275);
`reached dNew e novel` — the `d_free >= d_new` branch ran: the Python
local `is_acceptable_goal` is assigned `e.acceptable` (line 260), and the
candidate is collected iff `e.acceptable` or the novelty test passed
(`novel`, lines 262-273). -/
inductive AptgStep where
  | noNearest
  | tooShort
  | blocked
  | reached (dNew : ℚ) (e : EdgeM) (novel : Bool)

/-- The loop state of `Planner.solve`: tree node count, iteration counter,
running `min_goal_dist_yet`, the Python local `is_acceptable_goal`
(`none` = never assigned), and whether the loop exited via `break`. -/
structure LoopState where
  nodes : ℕ
  counter : ℕ
  minGoalDist : WithTop ℚ
  iag : Option Bool
  broke : Bool
deriving DecidableEq

/-- State on entering the loop: the tree holds the root node only,
`min_goal_dist_yet = inf`, `is_acceptable_goal` unbound. -/
def initLoopState : LoopState := ⟨1, 0, ⊤, none, false⟩

/-- Folding one APTG evaluation into `(is_acceptable_goal, candidates)`
(planner.py lines 229-278). -/
def evalAptg (st : Option Bool × List (ℚ × EdgeM)) (s : AptgStep) :
    Option Bool × List (ℚ × EdgeM) :=
  match s with
  | .reached dNew e novel =>
    (some e.acceptable, if e.acceptable || novel then st.2 ++ [(dNew, e)] else st.2)
  | _ => st

/-- One iteration of the sampling loop (planner.py lines 224-295):
evaluate all APTGs, then commit `candidate_new_nodes.peekitem(-1)[1]`
when any candidate was collected, updating `min_goal_dist_yet` and
re-assigning `is_acceptable_goal` for the committed edge, and `break`
when the committed edge is an acceptable goal. -/
def solveIter (st : LoopState) (steps : List AptgStep) : LoopState :=
  let r := steps.foldl evalAptg (st.iag, [])
  match sortedDictCommit r.2 with
  | none => ⟨st.nodes, st.counter + 1, st.minGoalDist, r.1, false⟩
  | some e =>
    ⟨st.nodes + 1, st.counter + 1, min ((e.2.goalDist : ℚ) : WithTop ℚ) st.minGoalDist,
      some e.2.acceptable, e.2.acceptable⟩

/-- The `while not solution_found and len(self.tree.nodes) < max_count`
loop (planner.py line 224), driven by the per-iteration oracle list.
`solution_found` is never assigned `True` in the source, so the loop exits
only on the node cap or via `break`. -/
def solveLoop (maxCount : ℕ) : List (List AptgStep) → LoopState → LoopState
  | [], st => st
  | it :: rest, st =>
    if st.broke = false ∧ st.nodes < maxCount then
      solveLoop maxCount rest (solveIter st it)
    else st

/-- The planner-visible outcome fields set at planner.py lines 300-321. -/
structure SolveResult where
  success : Bool
  iterations : ℕ
  nodeCount : ℕ
  bestPathLength : ℚ
  bestDistToTarget : WithTop ℚ
deriving DecidableEq

/-- Python runtime errors the skeleton can surface: reading the local
`is_acceptable_goal` at line 300 when no assignment ever executed raises
`UnboundLocalError`. -/
inductive PyError where
  | unboundLocal
deriving DecidableEq

/-- `Planner.solve` after the loop (planner.py lines 296-328): read
`is_acceptable_goal`; when it is `False` report failure with the counters
and best distance, when `True` report success.  Reading it unassigned is
an `UnboundLocalError`. -/
def solveRun (maxCount : ℕ) (iters : List (List AptgStep)) :
    Except PyError SolveResult :=
  let st := solveLoop maxCount iters initLoopState
  match st.iag with
  | none => .error .unboundLocal
  | some b =>
    if b then .ok ⟨true, st.counter, st.nodes, 0, st.minGoalDist⟩
    else .ok ⟨false, st.counter, st.nodes, 0, st.minGoalDist⟩

/-! ## Trajectory construction (ptg.py lines 186-221 and 272-307)

The sampling loops of `CPTG.build_cpoints` and `AlphaA_PTG.build_cpoints`
are identical except for the control policy computing `(v, w)` each step:
constant for `CPTG`, the saturating closed-loop law for `AlphaA_PTG`.
The vehicle integration step (`vehicle.execute_motion`, in vehicle.py,
not among the sources) is a parameter; Modelled from the spec:
`integrate(pose, v, w, dt) -> Pose`.  The Python loop has no a-priori
iteration bound (its counter `n` advances only on retained samples), so
the Lean loop takes explicit fuel; every produced list is a run of the
source loop. -/

/-- A pose over ℝ (the build loop feeds `sqrt`/`tan`/`exp`). -/
structure PoseR where
  x : ℝ
  y : ℝ
  th : ℝ
  ph : ℝ

/-- Modelled from the spec: `PoseR2S2` subtraction produces the relative
pose of `a` in the frame of `b` (position difference rotated into `b`'s
frame, heading and articulation differences); primitive.py is not among
the sources. -/
noncomputable def poseSubR (a b : PoseR) : PoseR :=
  ⟨(a.x - b.x) * Real.cos b.th + (a.y - b.y) * Real.sin b.th,
    -(a.x - b.x) * Real.sin b.th + (a.y - b.y) * Real.cos b.th,
    a.th - b.th, a.ph - b.ph⟩

/-- `delta_pose.norm`: planar Euclidean norm of a relative pose. -/
noncomputable def pnormR (p : PoseR) : ℝ := Real.sqrt (p.x ^ 2 + p.y ^ 2)

/-- One retained trajectory sample of the build loop. -/
structure CPtR where
  pose : PoseR
  d : ℝ
  v : ℝ
  w : ℝ
  alpha : ℝ
  n : ℕ

/-- The configuration a build loop reads: the integration step, `dt`,
`d_max` (= `grid_size`), `n_max`, `k_theta`, `min_dist_between_cpoints`,
`vehicle.phi_max`, `r = vehicle.tractor_l`, and the trajectory's `alpha`. -/
structure BuildCfg where
  step : PoseR → ℝ → ℝ → ℝ → PoseR
  dt : ℝ
  dMax : ℝ
  nMax : ℕ
  kTheta : ℝ
  minDist : ℝ
  phiMax : ℝ
  r : ℝ
  alpha : ℝ

/-- The mutable loop state: current pose, last retained pose, accumulated
TP-space distance, accumulated rotation, retained count `n`, and the
retained samples. -/
structure BuildState where
  pose : PoseR
  lastPose : PoseR
  dist : ℝ
  rotation : ℝ
  n : ℕ
  acc : List CPtR

/-- The retention metric of ptg.py lines 212-215 / 298-301:
`max(delta_pose.norm, |delta_pose.theta| * k_theta)` for the relative pose
of `b` in the frame of `a`. -/
noncomputable def sepMetric (kTheta : ℝ) (a b : PoseR) : ℝ :=
  max (pnormR (poseSubR b a)) (|(poseSubR b a).th| * kTheta)

open Classical in
/-- The sampling `while` loop shared by `CPTG.build_cpoints`
(ptg.py lines 206-219) and `AlphaA_PTG.build_cpoints` (lines 287-305),
with the per-step control policy `ctrl` as a parameter. -/
noncomputable def buildLoop (cfg : BuildCfg) (ctrl : PoseR → ℝ × ℝ) :
    ℕ → BuildState → List CPtR
  | 0, st => st.acc
  | fuel + 1, st =>
    if |st.rotation| < 1.95 * Real.pi ∧ st.dist < cfg.dMax ∧ st.n < cfg.nMax ∧
        |st.pose.ph| ≤ cfg.phiMax then
      let vw := ctrl st.pose
      let pose2 := cfg.step st.pose vw.1 vw.2 cfg.dt
      let rot2 := st.rotation + vw.2 * cfg.dt
      let dist2 := st.dist +
        Real.sqrt (vw.1 * vw.1 + (vw.2 * cfg.r) * (vw.2 * cfg.r)) * cfg.dt
      if sepMetric cfg.kTheta st.lastPose pose2 > cfg.minDist then
        buildLoop cfg ctrl fuel ⟨pose2, pose2, dist2, rot2, st.n + 1,
          st.acc ++ [⟨pose2, dist2, vw.1, vw.2, cfg.alpha, st.n⟩]⟩
      else
        buildLoop cfg ctrl fuel ⟨pose2, st.lastPose, dist2, rot2, st.n, st.acc⟩
    else st.acc

/-- The identity pose with the configured initial articulation angle,
`PoseR2S2(0., 0., 0., self.init_phi)`. -/
def initPoseR (initPhi : ℝ) : PoseR := ⟨0, 0, 0, initPhi⟩

/-- The per-`alpha` trajectory of `CPTG.build_cpoints`
(ptg.py lines 197-220): constant `v = K * v_max`,
`w = v / tractor_l * tan(alpha)`, initial sample at distance 0. -/
noncomputable def cptgTrajectory (cfg : BuildCfg) (vMax K initPhi : ℝ)
    (fuel : ℕ) : List CPtR :=
  let v := K * vMax
  let w := v / cfg.r * Real.tan cfg.alpha
  let p0 := initPoseR initPhi
  buildLoop cfg (fun _ => (v, w)) fuel ⟨p0, p0, 0, 0, 0, [⟨p0, 0, v, w, cfg.alpha, 0⟩]⟩

/-- Modelled from the spec: `helper.wrap_to_npi_pi` wraps an angle into
`[-π, π)`; helper.py is not among the sources. -/
noncomputable def wrapToNpiPi (x : ℝ) : ℝ :=
  x - 2 * Real.pi * ((round (x / (2 * Real.pi)) : ℤ) : ℝ)

/-- The closed-loop control law of `AlphaA_PTG.build_cpoints`
(ptg.py lines 291-293). -/
noncomputable def alphaACtrl (vMax wMax K alpha : ℝ) (p : PoseR) : ℝ × ℝ :=
  let d := wrapToNpiPi (alpha - p.th)
  (K * vMax * Real.exp (-(d / 1) ^ 2),
    K * wMax * (-0.5 + 1 / (1 + Real.exp (-d / 1))))

/-- The per-`alpha` trajectory of `AlphaA_PTG.build_cpoints`
(ptg.py lines 278-306): same loop, with `(v, w)` recomputed each step by
the saturating feedback law; the initial sample stores the open-loop
`(v, w)` like the source. -/
noncomputable def alphaATrajectory (cfg : BuildCfg) (vMax wMax K initPhi : ℝ)
    (fuel : ℕ) : List CPtR :=
  let v := K * vMax
  let w := v / cfg.r * Real.tan cfg.alpha
  let p0 := initPoseR initPhi
  buildLoop cfg (alphaACtrl vMax wMax K cfg.alpha) fuel
    ⟨p0, p0, 0, 0, 0, [⟨p0, 0, v, w, cfg.alpha, 0⟩]⟩

/-- The three invariants §8 states for one retained trajectory: the sample
sequence starts at cumulative distance 0, `d` is non-decreasing along the
sample index, and consecutive retained samples are separated by more than
the minimum-spacing threshold under the retention metric. -/
def TrajProps (kTheta minDist : ℝ) (l : List CPtR) : Prop :=
  l.head?.map (fun c => c.d) = some 0 ∧
  l.Chain' (fun a b => a.d ≤ b.d) ∧
  l.Chain' (fun a b => sepMetric kTheta a.pose b.pose > minDist)

/-! ## Concrete instances used to evaluate the code at failing inputs -/

/-- A PTG instance exercising the grid-indexed branch of `inverse_WS2TP`:
one trajectory whose second sample sits at `(3, 0)` with cumulative arc
length 4, a point-index whose cell `(0, 0)` holds exactly that sample
(bounds `(0, 1, 0, 1)`), and `distance_ref = 1`. -/
def ptgC1 : PTGm where
  cpoints := [[⟨0, 0, 0, 0⟩, ⟨3, 0, 4, 0⟩]]
  distance_ref := 1
  xToIx := fun _ => 0
  yToIy := fun _ => 0
  cellByIdx := fun i j => if i = 0 ∧ j = 0 then some (0, 1, 0, 1) else none
  alpha2idxF := fun _ => 0

/-- A query pose close to `ptgC1`'s second sample. -/
def poseC1 : PoseQ := ⟨3, 1 / 2, 0, 0⟩

/-- A PTG instance for the neighbourhood-union check: the centre cell
`(0, 0)` holds only trajectory 0's sample (bounds `(0, 0, 0, 0)`), while
the neighbouring cell `(1, 0)` holds trajectory 1's sample
(bounds `(1, 0, 1, 0)`). -/
def ptgC2 : PTGm where
  cpoints := [[⟨0, 0, 0, 0⟩], [⟨1, 0, 0, 0⟩]]
  distance_ref := 1
  xToIx := fun _ => 0
  yToIy := fun _ => 0
  cellByIdx := fun i j =>
    if i = 0 ∧ j = 0 then some (0, 0, 0, 0)
    else if i = 1 ∧ j = 0 then some (1, 0, 1, 0)
    else none
  alpha2idxF := fun _ => 0

/-- An obstacle-index whose every cell records the single pair
`(k = 0, d = 5)` for a PTG with one trajectory and `distance_ref = 1`. -/
def obsPtgC6 : ObsPTG where
  numK := 1
  distance_ref := 1
  cellByPos := fun _ => some [⟨0, 5⟩]

/-- The free distance recorded for steering index `k` by the obstacle-index
cell of one in-range obstacle point: `none` when the point is out of the
`max_dist` box, its cell holds no record, or the cell has no pair for `k`. -/
def recordedDist (P : ObsPTG) (k : ℕ) (maxDist : ℚ) (o : PointR2) : Option ℚ :=
  if |o.x| > maxDist ∨ |o.y| > maxDist then none
  else (P.cellByPos o).bind fun cell =>
    (cell.find? fun p => p.k = k).map fun p => p.d

end Prrt

namespace Prrt

/-- Keys of a sorted-dictionary backing list are strictly ascending. -/
def SdSorted {α : Type} (m : List (ℚ × α)) : Prop :=
  m.Chain' (fun a b => a.1 < b.1)

theorem sdInsert_ne_nil {α : Type} (m : List (ℚ × α)) (e : ℚ × α) :
    sdInsert m e ≠ [] := by
  cases m with
  | nil => simp [sdInsert]
  | cons hd tl =>
    obtain ⟨k, v⟩ := hd
    unfold sdInsert
    split <;> [skip; split] <;> simp

theorem sdInsert_sorted {α : Type} {m : List (ℚ × α)} (e : ℚ × α)
    (hs : SdSorted m) : SdSorted (sdInsert m e) := by
  induction m with
  | nil => simp [sdInsert, SdSorted]
  | cons hd tl ih =>
    obtain ⟨k, v⟩ := hd
    rw [SdSorted, List.chain'_cons'] at hs
    unfold sdInsert
    split
    · rename_i hlt
      refine List.Chain'.cons hlt ?_
      exact List.chain'_cons'.mpr hs
    · split
      · rename_i hne heq
        rw [SdSorted, List.chain'_cons']
        refine ⟨?_, hs.2⟩
        intro y hy
        have := hs.1 y hy
        simpa [heq] using this
      · rename_i hne hneq
        have hgt : k < e.1 := by
          rcases lt_trichotomy e.1 k with h | h | h
          · exact absurd h hne
          · exact absurd h hneq
          · exact h
        rw [SdSorted, List.chain'_cons']
        refine ⟨?_, ih hs.2⟩
        intro y hy
        cases tl with
        | nil =>
          simp [sdInsert] at hy
          simpa [← hy] using hgt
        | cons hd2 tl2 =>
          obtain ⟨k2, v2⟩ := hd2
          unfold sdInsert at hy
          split at hy
          · simp at hy
            simpa [← hy] using hgt
          · split at hy
            · simp at hy
              simpa [← hy] using hgt
            · simp at hy
              rw [← hy]
              exact hs.1 (k2, v2) rfl

theorem sorted_head_le_getLast {α : Type} {k : ℚ} {v : α} {tl : List (ℚ × α)}
    (hs : SdSorted ((k, v) :: tl)) (b : ℚ × α)
    (hb : ((k, v) :: tl).getLast? = some b) : k ≤ b.1 := by
  induction tl generalizing k v with
  | nil =>
    simp at hb
    simp [← hb]
  | cons hd2 tl2 ih =>
    obtain ⟨k2, v2⟩ := hd2
    rw [SdSorted, List.chain'_cons] at hs
    have hb2 : ((k2, v2) :: tl2).getLast? = some b := by
      simpa [List.getLast?] using hb
    have h2 : k2 ≤ b.1 := ih hs.2 hb2
    exact le_of_lt (lt_of_lt_of_le hs.1 h2)

theorem getLast?_cons_ne_nil {α : Type} (a : α) {l : List α} (h : l ≠ []) :
    (a :: l).getLast? = l.getLast? := by
  cases l with
  | nil => exact absurd rfl h
  | cons b tl => exact List.getLast?_cons_cons

/-- Effect of one `SortedDict` update on the greatest entry: the new entry
becomes greatest exactly when its key is at least the current greatest key. -/
theorem sdInsert_getLast {α : Type} {m : List (ℚ × α)} (e : ℚ × α)
    (hs : SdSorted m) :
    (sdInsert m e).getLast? = specStep m.getLast? e := by
  induction m with
  | nil => simp [sdInsert, specStep]
  | cons hd tl ih =>
    obtain ⟨k, v⟩ := hd
    unfold sdInsert
    split
    · rename_i hlt
      cases hb : ((k, v) :: tl).getLast? with
      | none => simp at hb
      | some b =>
        have hkb : k ≤ b.1 := sorted_head_le_getLast hs b hb
        have hble : ¬ b.1 ≤ e.1 := by
          intro hc
          exact absurd (lt_of_le_of_lt (hkb.trans hc) hlt) (lt_irrefl k)
        rw [getLast?_cons_ne_nil e (List.cons_ne_nil _ _), hb]
        simp [specStep, hble]
    · split
      · rename_i hne heq
        cases tl with
        | nil => simp [specStep, heq]
        | cons hd2 tl2 =>
          rw [SdSorted, List.chain'_cons] at hs
          cases hb : ((hd2 :: tl2)).getLast? with
          | none => simp at hb
          | some b =>
            have hk2b : hd2.1 ≤ b.1 := by
              obtain ⟨k2, v2⟩ := hd2
              exact sorted_head_le_getLast hs.2 b hb
            have hble : ¬ b.1 ≤ e.1 := by
              intro hc
              have : hd2.1 < hd2.1 :=
                lt_of_le_of_lt (le_trans hk2b (hc.trans heq.le)) hs.1
              exact absurd this (lt_irrefl _)
            rw [getLast?_cons_ne_nil e (List.cons_ne_nil _ _),
              List.getLast?_cons_cons, hb]
            simp [specStep, hble]
      · rename_i hne hneq
        rw [SdSorted, List.chain'_cons'] at hs
        have hgt : k < e.1 := by
          rcases lt_trichotomy e.1 k with h | h | h
          · exact absurd h hne
          · exact absurd h hneq
          · exact h
        rw [getLast?_cons_ne_nil (k, v) (sdInsert_ne_nil tl e), ih hs.2]
        cases tl with
        | nil => simp [specStep, le_of_lt hgt]
        | cons hd2 tl2 => rw [List.getLast?_cons_cons]

theorem foldl_sdInsert_getLast {α : Type} (entries : List (ℚ × α)) :
    ∀ acc : List (ℚ × α), SdSorted acc →
      (entries.foldl sdInsert acc).getLast? = entries.foldl specStep acc.getLast? := by
  induction entries with
  | nil => intro acc _; rfl
  | cons e rest ih =>
    intro acc hacc
    simp only [List.foldl_cons]
    rw [ih (sdInsert acc e) (sdInsert_sorted e hacc), sdInsert_getLast e hacc]

/-- The `SortedDict`-based commit equals the spec-side running-best tracker. -/
theorem sortedDictCommit_eq_specCommit {α : Type} (entries : List (ℚ × α)) :
    sortedDictCommit entries = specCommit entries := by
  have h := foldl_sdInsert_getLast entries [] (by simp [SdSorted])
  simpa [sortedDictCommit, sdOfInserts, specCommit] using h

theorem specCommit_props {α : Type} (entries : List (ℚ × α)) (hne : entries ≠ []) :
    ∃ e, specCommit entries = some e ∧ e ∈ entries ∧
      (∀ x ∈ entries, x.1 ≤ e.1) ∧
      (entries.filter fun x => x.1 = e.1).getLast? = some e := by
  induction entries using List.reverseRecOn with
  | nil => exact absurd rfl hne
  | append_singleton l a ih =>
    cases hl : l with
    | nil =>
      refine ⟨a, ?_, ?_, ?_, ?_⟩ <;> simp [hl, specCommit, specStep]
    | cons hd tl =>
      obtain ⟨e, he1, he2, he3, he4⟩ := ih (by simp [hl])
      rw [← hl] at *
      have hstep : specCommit (l ++ [a]) = specStep (specCommit l) a := by
        simp [specCommit, List.foldl_append]
      by_cases hle : e.1 ≤ a.1
      · refine ⟨a, ?_, ?_, ?_, ?_⟩
        · rw [hstep, he1]; simp [specStep, hle]
        · simp
        · intro x hx
          rcases List.mem_append.mp hx with hx | hx
          · exact (he3 x hx).trans hle
          · simp at hx; simp [hx]
        · rw [List.filter_append]
          simp
      · refine ⟨e, ?_, ?_, ?_, ?_⟩
        · rw [hstep, he1]; simp [specStep, hle]
        · exact List.mem_append.mpr (Or.inl he2)
        · intro x hx
          rcases List.mem_append.mp hx with hx | hx
          · exact he3 x hx
          · simp at hx; rw [hx]; exact le_of_lt (lt_of_not_le hle)
        · rw [List.filter_append]
          have hna : ¬ (a.1 = e.1) := fun hc => hle (le_of_eq hc.symm)
          simp [hna, he4]

/-! ## Claim theorems -/

/-- Claim C2: the scanned `(k, n)` rectangle is claimed to be the union of
the bounding ranges of all nine cells of the 3×3 neighbourhood, so that
every indexed CPoint of each neighbouring cell lies inside it.  Evaluating
the code at `ptgC2` refutes this: the loop body queries the centre cell
`(ix, iy)` on all nine iterations (ptg.py line 131 uses `ix, iy`, not the
loop variables `i, j`), so the scanned rectangle is `(0, 0, 0, 0)` — the
centre cell's own bounds — and the neighbouring cell `(1, 0)`'s indexed
point with steering index 1 lies outside it, while the spec-side union
`specBounds` does reach `k_max = 1`. -/
theorem c2_neighborhood_union_ignored :
    scanBounds ptgC2 0 0 = ⟨0, 0, 0, 0, true⟩ ∧
    ptgC2.cellByIdx 1 0 = some (1, 0, 1, 0) ∧
    ¬ (1 : ℕ) ≤ (scanBounds ptgC2 0 0).kmax ∧
    specBounds ptgC2 0 0 = ⟨0, 0, 1, 0, true⟩ := by
  refine ⟨rfl, rfl, ?_, rfl⟩
  decide

/-- Claim C5: `Planner.solve` is claimed to return normally with
`planner_success = false` whenever the node-count cap is reached without a
goal-satisfying committed node, including runs in which no candidate was
ever committed.  Evaluating the skeleton refutes this: with
`max_count = 1` the loop body never runs (the tree already holds the root
node), the local `is_acceptable_goal` is never assigned, and reading it at
planner.py line 300 raises `UnboundLocalError` instead of returning. -/
theorem c5_unbound_local_on_degenerate_cap :
    solveRun 1 [[AptgStep.blocked]] = .error .unboundLocal ∧
    solveRun 1 [] = .error .unboundLocal := by
  exact ⟨rfl, rfl⟩

/-- Claim C8: an out-of-range rounded index is claimed to abort via the
assertion instead of returning a PTG.  Evaluating the code refutes this
for negative indices: with `phi_max = 1/2`, `phi_resolution = 1/10`, two
stored PTGs and `phi = -3/5`, the rounded index is `-1`; the assertion
`idx <= len(self.ptgs)` passes, and Python's negative indexing wraps
around and returns the *last* PTG instead of aborting. -/
theorem c8_negative_index_returns_ptg :
    rintQ (((-3 : ℚ) / 5 - -(1 / 2)) / (1 / 10)) = -1 ∧
    ptg_at_phi [(10 : ℕ), 20] (1 / 2) (1 / 10) (-3 / 5) = .ok 20 := by
  have harg : (((-3 : ℚ) / 5 - -(1 / 2)) / (1 / 10)) = -1 := by norm_num
  have hr : rintQ (((-3 : ℚ) / 5 - -(1 / 2)) / (1 / 10)) = -1 := by
    rw [harg]
    simp only [rintQ]
    norm_num
  refine ⟨hr, ?_⟩
  simp only [ptg_at_phi, hr]
  norm_num

/-- Claim C1: the grid-indexed branch of `inverse_WS2TP` is claimed to
return `is_exact = true`, the minimizing steering index, and a `d` whose
product with `distance_ref` is the nearest CPoint's stored arc length.
Evaluating the code at `ptgC1`/`poseC1` refutes the distance part: the
scan finds the nearest CPoint with stored arc length `d_best = 4`, but the
return at ptg.py line 152 computes `sqrt(d_best) / distance_ref` — the
spurious square root belongs to the extrapolation branch (line 163, where
`d_best` holds a squared quantity) — so the returned `d * distance_ref`
is `2`, not `4`. -/
theorem c1_grid_branch_sqrt_of_arclength :
    inverseWS2TPCore ptgC1 poseC1 = (true, 0, 4) ∧
    inverse_WS2TP ptgC1 poseC1 = (true, 0, 2) ∧
    (2 : ℝ) * (ptgC1.distance_ref : ℝ) ≠ ((4 : ℚ) : ℝ) := by
  have hcore : inverseWS2TPCore ptgC1 poseC1 = (true, 0, 4) := by
    simp only [inverseWS2TPCore, ptgC1, poseC1, scanBounds, boundsAdd, boundsInit,
      neighborOffsets, pyRange, List.foldl]
    norm_num
  refine ⟨hcore, ?_, by norm_num [ptgC1]⟩
  simp only [inverse_WS2TP, hcore]
  have h4 : (((4 : ℚ) : ℝ)) = (2 : ℝ) ^ 2 := by norm_num
  rw [h4, Real.sqrt_sq (by norm_num : (0 : ℝ) ≤ 2)]
  norm_num [ptgC1]

theorem nearest_step_agree (distF : PoseQ → PoseQ → WithTop ℚ) (t : PoseQ)
    (n : PoseQ) (st : Option PoseQ × WithTop ℚ)
    (hx : ((|n.x - t.x| : ℚ) : WithTop ℚ) ≤ distF n t)
    (hy : ((|n.y - t.y| : ℚ) : WithTop ℚ) ≤ distF n t) :
    nearestStepFiltered distF t st n = nearestStepUnfiltered distF t st n := by
  unfold nearestStepFiltered nearestStepUnfiltered
  by_cases h1 : ((|n.x - t.x| : ℚ) : WithTop ℚ) > st.2
  · have hnd : ¬ distF n t < st.2 := fun hc =>
      absurd (lt_of_lt_of_le h1 hx) (not_lt.mpr hc.le)
    rw [if_pos h1, if_neg hnd]
  · by_cases h2 : ((|n.y - t.y| : ℚ) : WithTop ℚ) > st.2
    · have hnd : ¬ distF n t < st.2 := fun hc =>
        absurd (lt_of_lt_of_le h2 hy) (not_lt.mpr hc.le)
      rw [if_neg h1, if_pos h2, if_neg hnd]
    · rw [if_neg h1, if_neg h2]

theorem nearest_scan_agree (distF : PoseQ → PoseQ → WithTop ℚ) (t : PoseQ)
    (ns : List PoseQ)
    (hdom : ∀ n ∈ ns, ((|n.x - t.x| : ℚ) : WithTop ℚ) ≤ distF n t ∧
      ((|n.y - t.y| : ℚ) : WithTop ℚ) ≤ distF n t) :
    ∀ st : Option PoseQ × WithTop ℚ,
      ns.foldl (nearestStepFiltered distF t) st =
      ns.foldl (nearestStepUnfiltered distF t) st := by
  induction ns with
  | nil => intro st; rfl
  | cons n rest ih =>
    intro st
    have hd := hdom n (by simp)
    have ihr := ih (fun m hm => hdom m (by simp [hm]))
    simp only [List.foldl_cons]
    rw [nearest_step_agree distF t n st hd.1 hd.2]
    exact ihr _

/-- Claim C3 counterexample: the pre-filtered nearest-node scan is claimed
to always return the same node and distance as the unfiltered scan.  At
the concrete distance oracle `cexDist` (whose values sqrt-of-arc-length
`get_distance` can produce, see `cexDist`'s doc), node `(10, 0)` has
coordinate offset 40 to the target yet distance 7: after the first node
sets `d_min = 10`, the pre-filter `|Δx| > d_min` rejects it, and the
filtered scan returns the first node at distance 10 while the unfiltered
scan returns the second at distance 7. -/
theorem c3_prefilter_rejects_minimizer :
    getAptgNearestNode cexDist cexNodes cexTarget =
      (some ⟨0, 0, 0, 0⟩, ((10 : ℚ) : WithTop ℚ)) ∧
    unfilteredNearestNode cexDist cexNodes cexTarget =
      (some ⟨10, 0, 0, 0⟩, ((7 : ℚ) : WithTop ℚ)) ∧
    getAptgNearestNode cexDist cexNodes cexTarget ≠
      unfilteredNearestNode cexDist cexNodes cexTarget := by
  have hcd10 : (if (0 : ℚ) = 0 then ((10 : ℚ) : WithTop ℚ) else ((7 : ℚ) : WithTop ℚ)) =
      ((10 : ℚ) : WithTop ℚ) := if_pos rfl
  have hcd7 : (if (10 : ℚ) = 0 then ((10 : ℚ) : WithTop ℚ) else ((7 : ℚ) : WithTop ℚ)) =
      ((7 : ℚ) : WithTop ℚ) := if_neg (by norm_num)
  have sA : nearestStepFiltered cexDist cexTarget (none, ⊤) ⟨0, 0, 0, 0⟩ =
      (some ⟨0, 0, 0, 0⟩, ((10 : ℚ) : WithTop ℚ)) := by
    unfold nearestStepFiltered cexDist cexTarget
    rw [if_neg (by exact not_top_lt), if_neg (by exact not_top_lt)]
    rw [hcd10, if_pos (WithTop.coe_lt_top 10)]
  have sB : nearestStepFiltered cexDist cexTarget
      (some ⟨0, 0, 0, 0⟩, ((10 : ℚ) : WithTop ℚ)) ⟨10, 0, 0, 0⟩ =
      (some ⟨0, 0, 0, 0⟩, ((10 : ℚ) : WithTop ℚ)) := by
    unfold nearestStepFiltered cexTarget
    rw [if_pos]
    rw [show |(10 : ℚ) - 50| = 40 by norm_num]
    exact WithTop.coe_lt_coe.mpr (by norm_num)
  have h1 : getAptgNearestNode cexDist cexNodes cexTarget =
      (some ⟨0, 0, 0, 0⟩, ((10 : ℚ) : WithTop ℚ)) := by
    show nearestStepFiltered cexDist cexTarget
      (nearestStepFiltered cexDist cexTarget (none, ⊤) ⟨0, 0, 0, 0⟩) ⟨10, 0, 0, 0⟩ =
      (some ⟨0, 0, 0, 0⟩, ((10 : ℚ) : WithTop ℚ))
    rw [sA, sB]
  have uA : nearestStepUnfiltered cexDist cexTarget (none, ⊤) ⟨0, 0, 0, 0⟩ =
      (some ⟨0, 0, 0, 0⟩, ((10 : ℚ) : WithTop ℚ)) := by
    unfold nearestStepUnfiltered cexDist
    rw [hcd10, if_pos (WithTop.coe_lt_top 10)]
  have uB : nearestStepUnfiltered cexDist cexTarget
      (some ⟨0, 0, 0, 0⟩, ((10 : ℚ) : WithTop ℚ)) ⟨10, 0, 0, 0⟩ =
      (some ⟨10, 0, 0, 0⟩, ((7 : ℚ) : WithTop ℚ)) := by
    unfold nearestStepUnfiltered cexDist
    rw [hcd7, if_pos (WithTop.coe_lt_coe.mpr (by norm_num))]
  have h2 : unfilteredNearestNode cexDist cexNodes cexTarget =
      (some ⟨10, 0, 0, 0⟩, ((7 : ℚ) : WithTop ℚ)) := by
    show nearestStepUnfiltered cexDist cexTarget
      (nearestStepUnfiltered cexDist cexTarget (none, ⊤) ⟨0, 0, 0, 0⟩) ⟨10, 0, 0, 0⟩ =
      (some ⟨10, 0, 0, 0⟩, ((7 : ℚ) : WithTop ℚ))
    rw [uA, uB]
  refine ⟨h1, h2, ?_⟩
  rw [h1, h2]
  intro hc
  have := congrArg Prod.fst hc
  simp at this

/-- Claim C3 (amended): the pre-filter returns the same nearest node and
minimum distance as the unfiltered scan *provided* the trajectory-space
distance of every node to the target dominates its coordinate offsets
(`|Δx| ≤ dist` and `|Δy| ≤ dist`); the code's distance does not guarantee
this (it returns the square root of the matched arc length, ptg.py
line 152 with line 106), which is what the counterexample exploits. -/
theorem c3_prefilter_sound_under_domination (distF : PoseQ → PoseQ → WithTop ℚ)
    (nodes : List PoseQ) (t : PoseQ)
    (hdom : ∀ n ∈ nodes, ((|n.x - t.x| : ℚ) : WithTop ℚ) ≤ distF n t ∧
      ((|n.y - t.y| : ℚ) : WithTop ℚ) ≤ distF n t) :
    getAptgNearestNode distF nodes t = unfilteredNearestNode distF nodes t := by
  unfold getAptgNearestNode unfilteredNearestNode
  exact nearest_scan_agree distF t nodes hdom (none, ⊤)

theorem c3_prefilter_sound_under_domination_witness :
    getAptgNearestNode (fun _ _ => ⊤) [⟨1, 2, 0, 0⟩] ⟨5, 5, 0, 0⟩ =
      unfilteredNearestNode (fun _ _ => ⊤) [⟨1, 2, 0, 0⟩] ⟨5, 5, 0, 0⟩ :=
  c3_prefilter_sound_under_domination (fun _ _ => ⊤) [⟨1, 2, 0, 0⟩] ⟨5, 5, 0, 0⟩
    (fun _ _ => ⟨le_top, le_top⟩)

/-- Claim C6 counterexample: `transform_toTP_obstacles` is claimed to
return, for index `k`, the smallest recorded free distance of the in-range
obstacle cells.  At `obsPtgC6` the single obstacle's cell records the pair
`(k = 0, d = 5)` — the smallest (indeed only) recorded distance is 5 —
but the entry starts at `distance_ref = 1` and is only ever *lowered*
(planner.py line 202 requires `kd_pair.d < obs_TP[k]`), so the function
returns 1, not 5. -/
theorem c6_free_distance_capped_at_ref :
    transform_toTP_obstacles obsPtgC6 [⟨0, 0⟩] 0 1 = [1] ∧ ((1 : ℚ) ≠ 5) := by
  constructor
  · simp only [transform_toTP_obstacles, obsStep, obsPtgC6, scanCollisionCell,
      List.foldl, List.replicate]
    norm_num
  · norm_num

/-- Claim C4: in every iteration that accepted at least one candidate, the
committed edge is the collected candidate with the greatest `d_new`, with
equal `d_new` resolved in favour of the last-inserted candidate — exactly
the behaviour of `SortedDict.update` / `peekitem(-1)` on the insertion
sequence. -/
theorem c4_commit_greatest_last_inserted {α : Type} (entries : List (ℚ × α))
    (hne : entries ≠ []) :
    ∃ e, sortedDictCommit entries = some e ∧ e ∈ entries ∧
      (∀ x ∈ entries, x.1 ≤ e.1) ∧
      (entries.filter fun x => x.1 = e.1).getLast? = some e := by
  rw [sortedDictCommit_eq_specCommit]
  exact specCommit_props entries hne

theorem c4_commit_greatest_last_inserted_witness :
    ∃ e, sortedDictCommit [((1 : ℚ), (10 : ℕ)), (2, 20), (2, 30)] = some e ∧
      e ∈ [((1 : ℚ), (10 : ℕ)), (2, 20), (2, 30)] ∧
      (∀ x ∈ [((1 : ℚ), (10 : ℕ)), (2, 20), (2, 30)], x.1 ≤ e.1) ∧
      ([((1 : ℚ), (10 : ℕ)), (2, 20), (2, 30)].filter fun x => x.1 = e.1).getLast? =
        some e :=
  c4_commit_greatest_last_inserted [((1 : ℚ), (10 : ℕ)), (2, 20), (2, 30)] (by simp)

theorem scanCollisionCell_no_improve (k : ℕ) (cur : ℚ) (cell : List KdPair)
    (h : ∀ p ∈ cell, p.k = k → ¬ p.d < cur) : scanCollisionCell k cur cell = cur := by
  induction cell with
  | nil => rfl
  | cons p rest ih =>
    unfold scanCollisionCell
    rw [if_neg]
    · exact ih fun q hq => h q (by simp [hq])
    · rintro ⟨h1, h2⟩
      exact h p (by simp) h1 h2

/-- With at most one distance recorded for `k` per cell, the break-carrying
inner loop computes the minimum of the running value and the cell's record
for `k`. -/
theorem scanCollisionCell_eq_find (k : ℕ) (cur : ℚ) (cell : List KdPair)
    (huniq : ∀ p1 ∈ cell, ∀ p2 ∈ cell, p1.k = k → p2.k = k → p1.d = p2.d) :
    scanCollisionCell k cur cell =
      match cell.find? (fun p => p.k = k) with
      | none => cur
      | some p => min cur p.d := by
  induction cell with
  | nil => rfl
  | cons p rest ih =>
    by_cases hk : p.k = k
    · rw [List.find?_cons_of_pos _ (by simpa using hk)]
      unfold scanCollisionCell
      by_cases hlt : p.d < cur
      · rw [if_pos ⟨hk, hlt⟩]
        simp [min_eq_right hlt.le]
      · rw [if_neg (by rintro ⟨_, h2⟩; exact hlt h2)]
        rw [scanCollisionCell_no_improve k cur rest]
        · simp [min_eq_left (not_lt.mp hlt)]
        · intro q hq hqk hqlt
          have : q.d = p.d := huniq q (by simp [hq]) p (by simp) hqk hk
          rw [this] at hqlt
          exact hlt hqlt
    · rw [List.find?_cons_of_neg _ (by simpa using hk)]
      unfold scanCollisionCell
      rw [if_neg (by rintro ⟨h1, _⟩; exact hk h1)]
      exact ih fun q1 h1 q2 h2 => huniq q1 (by simp [h1]) q2 (by simp [h2])

theorem getD_set_self (l : List ℚ) (n : ℕ) (v : ℚ) (hn : n < l.length) :
    (l.set n v).getD n 0 = v := by
  induction l generalizing n with
  | nil => simp at hn
  | cons hd tl ih =>
    cases n with
    | zero => rfl
    | succ m => exact ih m (by simpa using hn)

theorem getD_replicate (n k : ℕ) (v : ℚ) (hk : k < n) :
    (List.replicate n v).getD k 0 = v := by
  induction n generalizing k with
  | zero => simp at hk
  | succ m ih =>
    cases k with
    | zero => rfl
    | succ j => exact ih j (by omega)

theorem obsStep_length (P : ObsPTG) (k : ℕ) (maxDist : ℚ) (l : List ℚ)
    (o : PointR2) : (obsStep P k maxDist l o).length = l.length := by
  unfold obsStep
  split
  · rfl
  · split
    · rfl
    · exact List.length_set l k _

theorem obsStep_getD (P : ObsPTG) (k : ℕ) (maxDist : ℚ) (l : List ℚ)
    (o : PointR2) (hk : k < l.length)
    (hcell : ∀ cell, P.cellByPos o = some cell →
      ∀ p1 ∈ cell, ∀ p2 ∈ cell, p1.k = k → p2.k = k → p1.d = p2.d) :
    (obsStep P k maxDist l o).getD k 0 =
      match recordedDist P k maxDist o with
      | none => l.getD k 0
      | some d => min (l.getD k 0) d := by
  unfold obsStep recordedDist
  by_cases hrange : |o.x| > maxDist ∨ |o.y| > maxDist
  · rw [if_pos hrange, if_pos hrange]
  · rw [if_neg hrange, if_neg hrange]
    cases hc : P.cellByPos o with
    | none => rfl
    | some cell =>
      rw [getD_set_self _ _ _ hk, scanCollisionCell_eq_find k _ cell (hcell cell hc)]
      cases hf : cell.find? (fun p => p.k = k) with
      | none => simp [hf]
      | some p => simp [hf]

theorem transform_foldl_getD (P : ObsPTG) (k : ℕ) (maxDist : ℚ)
    (hcell : ∀ o cell, P.cellByPos o = some cell →
      ∀ p1 ∈ cell, ∀ p2 ∈ cell, p1.k = k → p2.k = k → p1.d = p2.d) :
    ∀ (obstacles : List PointR2) (l : List ℚ), k < l.length →
      (obstacles.foldl (obsStep P k maxDist) l).getD k 0 =
        (obstacles.filterMap (recordedDist P k maxDist)).foldl min (l.getD k 0) := by
  intro obstacles
  induction obstacles with
  | nil => intro l _; rfl
  | cons o rest ih =>
    intro l hk
    simp only [List.foldl_cons]
    have hlen : k < (obsStep P k maxDist l o).length := by
      rw [obsStep_length]; exact hk
    rw [ih (obsStep P k maxDist l o) hlen,
      obsStep_getD P k maxDist l o hk (hcell o)]
    cases hr : recordedDist P k maxDist o with
    | none => simp [List.filterMap_cons, hr]
    | some d => simp [List.filterMap_cons, hr]

/-- Claim C6 (amended): under the spec's obstacle-index cell invariant
(each cell records at most one minimal-free-distance per steering index —
§3: one pair "for every trajectory passing through that cell"), entry `k`
of `transform_toTP_obstacles` equals the *minimum of `distance_ref` and*
the smallest free distance recorded for `k` in the cells of the in-range
obstacle points, and `distance_ref` when no cell records a pair for `k`;
the entry starts at `distance_ref` and is only lowered, so a recorded
distance above `distance_ref` is not returned (the counterexample). -/
theorem c6_free_distance_min_capped (P : ObsPTG) (obstacles : List PointR2)
    (k : ℕ) (maxDist : ℚ) (hk : k < P.numK)
    (hcell : ∀ o cell, P.cellByPos o = some cell →
      ∀ p1 ∈ cell, ∀ p2 ∈ cell, p1.k = k → p2.k = k → p1.d = p2.d) :
    (transform_toTP_obstacles P obstacles k maxDist).getD k 0 =
      (obstacles.filterMap (recordedDist P k maxDist)).foldl min P.distance_ref := by
  unfold transform_toTP_obstacles
  rw [transform_foldl_getD P k maxDist hcell obstacles _
    (by rw [List.length_replicate]; exact hk)]
  rw [getD_replicate P.numK k P.distance_ref hk]

theorem c6_free_distance_min_capped_witness :
    (transform_toTP_obstacles obsPtgC6 [⟨0, 0⟩] 0 1).getD 0 0 =
      ([(⟨0, 0⟩ : PointR2)].filterMap (recordedDist obsPtgC6 0 1)).foldl min
        obsPtgC6.distance_ref :=
  c6_free_distance_min_capped obsPtgC6 [⟨0, 0⟩] 0 1 (by norm_num [obsPtgC6])
    (by
      intro o cell hc p1 h1 p2 h2 _ _
      simp only [obsPtgC6, Option.some_inj] at hc
      subst hc
      simp at h1 h2
      rw [h1, h2])

theorem foldl_min_le_init (l : List ℚ) (a : ℚ) : l.foldl min a ≤ a := by
  induction l generalizing a with
  | nil => exact le_refl a
  | cons x xs ih => exact le_trans (ih (min a x)) (min_le_left a x)

theorem foldl_min_le_mem (l : List ℚ) (a x : ℚ) (hx : x ∈ l) :
    l.foldl min a ≤ x := by
  induction l generalizing a with
  | nil => simp at hx
  | cons hd tl ih =>
    rcases List.mem_cons.mp hx with h | h
    · subst h
      exact le_trans (foldl_min_le_init tl (min a x)) (min_le_right a x)
    · exact ih (min a hd) h

theorem foldl_min_cases (l : List ℚ) (a : ℚ) :
    l.foldl min a = a ∨ l.foldl min a ∈ l := by
  induction l generalizing a with
  | nil => exact Or.inl rfl
  | cons hd tl ih =>
    rcases ih (min a hd) with h | h
    · rcases min_choice a hd with hm | hm
      · exact Or.inl (by rw [List.foldl_cons, h, hm])
      · exact Or.inr (by rw [List.foldl_cons, h, hm]; simp)
    · exact Or.inr (by simp [h])

/-- Claim C7: for a fixed steering index, enlarging the obstacle point set
never increases the free distance computed by `transform_toTP_obstacles`
(under the spec's one-record-per-index cell invariant, which the
break-carrying inner loop needs). -/
theorem c7_free_distance_monotone (P : ObsPTG) (k : ℕ) (maxDist : ℚ)
    (O Obig : List PointR2) (hk : k < P.numK)
    (hcell : ∀ o cell, P.cellByPos o = some cell →
      ∀ p1 ∈ cell, ∀ p2 ∈ cell, p1.k = k → p2.k = k → p1.d = p2.d)
    (hsub : O ⊆ Obig) :
    (transform_toTP_obstacles P Obig k maxDist).getD k 0 ≤
      (transform_toTP_obstacles P O k maxDist).getD k 0 := by
  unfold transform_toTP_obstacles
  rw [transform_foldl_getD P k maxDist hcell O _
    (by rw [List.length_replicate]; exact hk)]
  rw [transform_foldl_getD P k maxDist hcell Obig _
    (by rw [List.length_replicate]; exact hk)]
  rw [getD_replicate P.numK k P.distance_ref hk]
  rcases foldl_min_cases (O.filterMap (recordedDist P k maxDist)) P.distance_ref
    with h | h
  · rw [h]
    exact foldl_min_le_init _ _
  · obtain ⟨o, ho, hfo⟩ := List.mem_filterMap.mp h
    exact foldl_min_le_mem _ _ _ (List.mem_filterMap.mpr ⟨o, hsub ho, hfo⟩)

theorem c7_free_distance_monotone_witness :
    (transform_toTP_obstacles obsPtgC6 [⟨0, 0⟩] 0 1).getD 0 0 ≤
      (transform_toTP_obstacles obsPtgC6 [] 0 1).getD 0 0 :=
  c7_free_distance_monotone obsPtgC6 0 1 [] [⟨0, 0⟩] (by norm_num [obsPtgC6])
    (by
      intro o cell hc p1 h1 p2 h2 _ _
      simp only [obsPtgC6, Option.some_inj] at hc
      subst hc
      simp at h1 h2
      rw [h1, h2])
    (by simp)

theorem scanAtLeastD_eq_none_iff (d : ℚ) (l : List CPointQ) :
    scanAtLeastD d l = none ↔ ∀ c ∈ l, c.d < d := by
  induction l with
  | nil => simp [scanAtLeastD]
  | cons hd rest ih =>
    unfold scanAtLeastD
    by_cases h : d ≤ hd.d
    · rw [if_pos h]
      exact ⟨fun hc => absurd hc (by simp),
        fun hall => absurd (hall hd (by simp)) (not_lt.mpr h)⟩
    · rw [if_neg h, ih]
      constructor
      · intro hall c hc
        rcases List.mem_cons.mp hc with h2 | h2
        · rw [h2]; exact not_le.mp h
        · exact hall c h2
      · intro hall c hc
        exact hall c (by simp [hc])

theorem scanAtLeastD_first (d : ℚ) (l : List CPointQ) (c : CPointQ)
    (h : scanAtLeastD d l = some c) :
    ∃ i, ∃ hi : i < l.length, c = l.get ⟨i, hi⟩ ∧ d ≤ c.d ∧
      ∀ j (hj : j < i), (l.get ⟨j, by omega⟩).d < d := by
  induction l generalizing c with
  | nil => simp [scanAtLeastD] at h
  | cons hd tl ih =>
    unfold scanAtLeastD at h
    by_cases hle : d ≤ hd.d
    · rw [if_pos hle] at h
      refine ⟨0, by simp, ?_, ?_, ?_⟩
      · simpa using (Option.some_inj.mp h).symm
      · rw [← Option.some_inj.mp h]; exact hle
      · intro j hj; omega
    · rw [if_neg hle] at h
      obtain ⟨i, hi, hc, hcd, hprev⟩ := ih c h
      refine ⟨i + 1, by simpa using Nat.succ_lt_succ hi, by simpa using hc, hcd, ?_⟩
      intro j hj
      cases j with
      | zero => simpa using not_le.mp hle
      | succ m => simpa using hprev m (by omega)

theorem getLast?_is_mem {α : Type} (l : List α) (b : α)
    (hb : l.getLast? = some b) : b ∈ l := by
  induction l with
  | nil => simp at hb
  | cons hd tl ih =>
    cases tl with
    | nil =>
      simp at hb
      simp [hb]
    | cons hd2 tl2 =>
      rw [List.getLast?_cons_cons] at hb
      exact List.mem_cons.mpr (Or.inr (ih hb))

theorem chain_d_le_getLast (l : List CPointQ)
    (hmono : l.Chain' (fun a b => a.d ≤ b.d)) (b : CPointQ)
    (hb : l.getLast? = some b) : ∀ c ∈ l, c.d ≤ b.d := by
  induction l with
  | nil => simp at hb
  | cons hd tl ih =>
    intro c hc
    cases tl with
    | nil =>
      simp at hb hc
      rw [hc, ← hb]
    | cons hd2 tl2 =>
      rw [List.getLast?_cons_cons] at hb
      rw [List.chain'_cons] at hmono
      rcases List.mem_cons.mp hc with h | h
      · rw [h]
        exact le_trans hmono.1 (ih hmono.2 hb hd2 (by simp))
      · exact ih hmono.2 hb c h

/-- Claim C10: for `k` within bounds (the assertion at ptg.py line 167
passes), `get_cpoint_at_d` scans trajectory `k` and returns the first
sample whose cumulative distance is at least `d` (with its position in
the list characterized), returns `None` when `d` exceeds the last
sample's cumulative distance (using the non-decreasing `d` invariant),
and cannot return `None` under the planner's precondition
`ptg.cpoints[k_rand][-1].d >= d_new` checked at planner.py line 248
before the call at line 254. -/
theorem c10_get_cpoint_at_d_first_or_none (cps : List (List CPointQ)) (d : ℚ)
    (k : ℕ) (hk : k < cps.length)
    (hmono : (cps.getD k []).Chain' (fun a b => a.d ≤ b.d))
    (b : CPointQ) (hb : (cps.getD k []).getLast? = some b) :
    get_cpoint_at_d cps d k = some (scanAtLeastD d (cps.getD k [])) ∧
    (∀ c, scanAtLeastD d (cps.getD k []) = some c →
      ∃ i, ∃ hi : i < (cps.getD k []).length, c = (cps.getD k []).get ⟨i, hi⟩ ∧
        d ≤ c.d ∧ ∀ j (hj : j < i), ((cps.getD k []).get ⟨j, by omega⟩).d < d) ∧
    (b.d < d → scanAtLeastD d (cps.getD k []) = none) ∧
    (d ≤ b.d → ∃ c, scanAtLeastD d (cps.getD k []) = some c) := by
  refine ⟨?_, ?_, ?_, ?_⟩
  · unfold get_cpoint_at_d
    rw [if_pos hk]
  · intro c hc
    exact scanAtLeastD_first d _ c hc
  · intro hlt
    rw [scanAtLeastD_eq_none_iff]
    intro c hc
    exact lt_of_le_of_lt (chain_d_le_getLast _ hmono b hb c hc) hlt
  · intro hle
    cases hscan : scanAtLeastD d (cps.getD k []) with
    | some c => exact ⟨c, rfl⟩
    | none =>
      have hall := (scanAtLeastD_eq_none_iff d _).mp hscan
      have hbmem : b ∈ cps.getD k [] := getLast?_is_mem _ b hb
      exact absurd (hall b hbmem) (not_lt.mpr hle)

theorem c10_get_cpoint_at_d_first_or_none_witness :
    get_cpoint_at_d [[⟨0, 0, 0, 0⟩, ⟨0, 0, 2, 0⟩]] 1 0 =
      some (scanAtLeastD 1 ([[(⟨0, 0, 0, 0⟩ : CPointQ), ⟨0, 0, 2, 0⟩]].getD 0 [])) ∧
    (∀ c, scanAtLeastD 1 ([[(⟨0, 0, 0, 0⟩ : CPointQ), ⟨0, 0, 2, 0⟩]].getD 0 []) = some c →
      ∃ i, ∃ hi : i < ([[(⟨0, 0, 0, 0⟩ : CPointQ), ⟨0, 0, 2, 0⟩]].getD 0 []).length,
        c = ([[(⟨0, 0, 0, 0⟩ : CPointQ), ⟨0, 0, 2, 0⟩]].getD 0 []).get ⟨i, hi⟩ ∧
        (1 : ℚ) ≤ c.d ∧
        ∀ j (hj : j < i),
          (([[(⟨0, 0, 0, 0⟩ : CPointQ), ⟨0, 0, 2, 0⟩]].getD 0 []).get ⟨j, by omega⟩).d < 1) ∧
    ((⟨0, 0, 2, 0⟩ : CPointQ).d < 1 →
      scanAtLeastD 1 ([[(⟨0, 0, 0, 0⟩ : CPointQ), ⟨0, 0, 2, 0⟩]].getD 0 []) = none) ∧
    ((1 : ℚ) ≤ (⟨0, 0, 2, 0⟩ : CPointQ).d →
      ∃ c, scanAtLeastD 1 ([[(⟨0, 0, 0, 0⟩ : CPointQ), ⟨0, 0, 2, 0⟩]].getD 0 []) = some c) :=
  c10_get_cpoint_at_d_first_or_none [[⟨0, 0, 0, 0⟩, ⟨0, 0, 2, 0⟩]] 1 0 (by norm_num)
    (List.chain'_cons.mpr ⟨by norm_num, List.chain'_singleton _⟩) ⟨0, 0, 2, 0⟩ rfl

theorem head?_append_left {α : Type} (l l2 : List α) (h : l ≠ []) :
    (l ++ l2).head? = l.head? := by
  cases l with
  | nil => exact absurd rfl h
  | cons hd tl => rfl

theorem buildLoop_props (cfg : BuildCfg) (ctrl : PoseR → ℝ × ℝ)
    (hdt : 0 ≤ cfg.dt) :
    ∀ (fuel : ℕ) (st : BuildState) (b : CPtR),
      st.acc.getLast? = some b → b.pose = st.lastPose → b.d ≤ st.dist →
      st.acc.head?.map (fun c => c.d) = some 0 →
      st.acc.Chain' (fun a c => a.d ≤ c.d) →
      st.acc.Chain' (fun a c => sepMetric cfg.kTheta a.pose c.pose > cfg.minDist) →
      TrajProps cfg.kTheta cfg.minDist (buildLoop cfg ctrl fuel st) := by
  intro fuel
  induction fuel with
  | zero =>
    intro st b _ _ _ h4 h5 h6
    exact ⟨h4, h5, h6⟩
  | succ n ih =>
    intro st b h1 h2 h3 h4 h5 h6
    have hne : st.acc ≠ [] := by
      intro he
      rw [he] at h1
      simp at h1
    have hgrow : st.dist ≤ st.dist +
        Real.sqrt ((ctrl st.pose).1 * (ctrl st.pose).1 +
          ((ctrl st.pose).2 * cfg.r) * ((ctrl st.pose).2 * cfg.r)) * cfg.dt :=
      le_add_of_nonneg_right (mul_nonneg (Real.sqrt_nonneg _) hdt)
    simp only [buildLoop]
    split
    · rename_i hcond
      split
      · rename_i hsep
        apply ih _ ⟨cfg.step st.pose (ctrl st.pose).1 (ctrl st.pose).2 cfg.dt,
          st.dist + Real.sqrt ((ctrl st.pose).1 * (ctrl st.pose).1 +
            ((ctrl st.pose).2 * cfg.r) * ((ctrl st.pose).2 * cfg.r)) * cfg.dt,
          (ctrl st.pose).1, (ctrl st.pose).2, cfg.alpha, st.n⟩
        · simp
        · rfl
        · exact le_refl _
        · rw [head?_append_left _ _ hne]
          exact h4
        · rw [List.chain'_append]
          refine ⟨h5, List.chain'_singleton _, ?_⟩
          intro x hx y hy
          have hxb : x = b := by
            rw [Option.mem_def] at hx
            rw [hx] at h1
            exact Option.some_inj.mp h1
          have hyc := hy
          simp only [List.head?_cons, Option.mem_def, Option.some_inj] at hyc
          subst hyc
          rw [hxb]
          exact le_trans h3 hgrow
        · rw [List.chain'_append]
          refine ⟨h6, List.chain'_singleton _, ?_⟩
          intro x hx y hy
          have hxb : x = b := by
            rw [Option.mem_def] at hx
            rw [hx] at h1
            exact Option.some_inj.mp h1
          have hyc := hy
          simp only [List.head?_cons, Option.mem_def, Option.some_inj] at hyc
          subst hyc
          rw [hxb, h2]
          exact hsep
      · rename_i hsep
        exact ih _ b h1 h2 (le_trans h3 hgrow) h4 h5 h6
    · exact ⟨h4, h5, h6⟩

/-- Claim C9: every trajectory produced by `build_cpoints` — the
circular-arc `CPTG` variant and the closed-loop `AlphaA_PTG` variant alike
— starts at cumulative distance 0, has non-decreasing cumulative
arc-length `d` along the sample index, and separates every two
consecutive retained samples by more than `min_dist_between_cpoints`
under the metric `max(translation norm, |heading change| * k_theta)`. -/
theorem c9_build_cpoints_invariants (cfg : BuildCfg) (vMax wMax K initPhi : ℝ)
    (fuel : ℕ) (hdt : 0 ≤ cfg.dt) :
    TrajProps cfg.kTheta cfg.minDist (cptgTrajectory cfg vMax K initPhi fuel) ∧
    TrajProps cfg.kTheta cfg.minDist (alphaATrajectory cfg vMax wMax K initPhi fuel) := by
  constructor
  · unfold cptgTrajectory
    exact buildLoop_props cfg _ hdt fuel _
      ⟨initPoseR initPhi, 0, K * vMax, K * vMax / cfg.r * Real.tan cfg.alpha,
        cfg.alpha, 0⟩
      rfl rfl (le_refl _) rfl (List.chain'_singleton _) (List.chain'_singleton _)
  · unfold alphaATrajectory
    exact buildLoop_props cfg _ hdt fuel _
      ⟨initPoseR initPhi, 0, K * vMax, K * vMax / cfg.r * Real.tan cfg.alpha,
        cfg.alpha, 0⟩
      rfl rfl (le_refl _) rfl (List.chain'_singleton _) (List.chain'_singleton _)

theorem c9_build_cpoints_invariants_witness :
    TrajProps (1 : ℝ) 1
      (cptgTrajectory ⟨fun p _ _ _ => p, 1, 1, 1, 1, 1, 1, 1, 1⟩ 1 1 0 1) ∧
    TrajProps (1 : ℝ) 1
      (alphaATrajectory ⟨fun p _ _ _ => p, 1, 1, 1, 1, 1, 1, 1, 1⟩ 1 1 1 0 1) :=
  c9_build_cpoints_invariants ⟨fun p _ _ _ => p, 1, 1, 1, 1, 1, 1, 1, 1⟩ 1 1 1 0 1
    zero_le_one

end Prrt
